import Mathlib

/-!
Verification development for the Daily Five generator
(`scripts/generate-daily.cjs`).

The script is a single-pass batch pipeline: fetch trivia pools, filter,
deduplicate against a persisted ledger, select five questions, shuffle each
question's options with a seeded PRNG, and write the daily artifact plus the
updated ledger.  Below we give a shallow embedding of that pipeline: JavaScript
32-bit integer operations are modelled on `Nat` with explicit `% 2^32`
reductions, strings are Lean `String`s (JS `charCodeAt` UTF-16 code units agree
with code points on the BMP texts involved), and the file-system effects are
modelled as explicit state passing.
-/

/-- `2^32`, the modulus of every JavaScript 32-bit coercion (`>>> 0`,
`Math.imul`, `|`, `^`, `<<`). Signed (`ToInt32`) and unsigned (`ToUint32`)
coercions produce the same 32-bit pattern, so all of them are `% M32` here. -/
def M32 : Nat := 4294967296

/-- One call of the closure returned by `mulberry32(seed)`
(`generate-daily.cjs` lines 130-137).  The JS closure mutates `seed`; we
return the PRNG output together with the new state.  The output is the
numerator `u` of the produced float `u / 2^32`.

JS: `let t = seed += 0x6D2B79F5; t = Math.imul(t ^ (t >>> 15), t | 1);
t ^= t + Math.imul(t ^ (t >>> 7), t | 61); return ((t ^ (t >>> 14)) >>> 0) / 4294967296;` -/
def mb32next (s : Nat) : Nat × Nat :=
  let s' := (s + 0x6D2B79F5) % M32
  let t1 := ((s' ^^^ (s' >>> 15)) * (s' ||| 1)) % M32
  let t2 := t1 ^^^ ((t1 + (((t1 ^^^ (t1 >>> 7)) * (t1 ||| 61)) % M32)) % M32)
  (t2 ^^^ (t2 >>> 14), s')

/-- The swap `[out[i], out[j]] = [out[j], out[i]]` of `seededShuffle`
(line 143), as a total function on lists: out-of-range indices leave the
list unchanged (they never occur on the executed path). -/
def listSwap {α : Type} (l : List α) (i j : Nat) : List α :=
  match l.get? i, l.get? j with
  | some a, some b => (l.set i b).set j a
  | _, _ => l

/-- The descending Fisher-Yates loop of `seededShuffle` (lines 141-144).
The first argument is the JS loop variable `i`; each iteration draws one
PRNG value `u` and computes `j = Math.floor((u / 2^32) * (i + 1))`, which is
exact in double precision and equals the Nat division below. -/
def fyLoop {α : Type} : Nat → Nat → List α → List α
  | 0, _, l => l
  | i + 1, s, l =>
    let r := mb32next s
    fyLoop i r.2 (listSwap l (i + 1) (r.1 * (i + 2) / M32))

/-- `seededShuffle(arr, seedNum)` (lines 138-146): copy the array and run
Fisher-Yates from index `length - 1` down to `1` with `mulberry32(seedNum >>> 0)`.
Lists of length ≤ 1 make the loop body unreachable. -/
def seededShuffle {α : Type} (l : List α) (seed : Nat) : List α :=
  fyLoop (l.length - 1) (seed % M32) l

/-! ### Permutation facts about the shuffle -/

/-- Moving the element at index `k` to the front while writing `x` into its
slot is a permutation of consing `x`. -/
theorem cons_set_perm {α : Type} :
    ∀ (l : List α) (k : Nat) (b x : α), l.get? k = some b →
      List.Perm (b :: l.set k x) (x :: l) := by
  intro l
  induction l with
  | nil => intro k b x h; simp at h
  | cons y u ih =>
    intro k b x h
    cases k with
    | zero =>
      simp only [List.get?_cons_zero, Option.some.injEq] at h
      subst h
      simp only [List.set_cons_zero]
      exact List.Perm.swap x y u
    | succ m =>
      simp only [List.get?_cons_succ] at h
      have h1 := ih m b x h
      simp only [List.set_cons_succ]
      exact ((List.Perm.swap y b _).trans (List.Perm.cons y h1)).trans
        (List.Perm.swap x y u)

/-- Writing `b` at `i` and `a` at `j`, where `a`/`b` are the current entries
at `i`/`j`, permutes the list. -/
theorem set_set_perm {α : Type} :
    ∀ (l : List α) (i j : Nat) (a b : α),
      l.get? i = some a → l.get? j = some b →
      List.Perm ((l.set i b).set j a) l := by
  intro l
  induction l with
  | nil => intro i j a b h; simp at h
  | cons x t ih =>
    intro i j a b hi hj
    cases i with
    | zero =>
      simp only [List.get?_cons_zero, Option.some.injEq] at hi
      subst hi
      cases j with
      | zero =>
        simp only [List.get?_cons_zero, Option.some.injEq] at hj
        subst hj
        simp
      | succ m =>
        simp only [List.get?_cons_succ] at hj
        simp only [List.set_cons_zero, List.set_cons_succ]
        exact cons_set_perm t m b x hj
    | succ k =>
      simp only [List.get?_cons_succ] at hi
      cases j with
      | zero =>
        simp only [List.get?_cons_zero, Option.some.injEq] at hj
        subst hj
        simp only [List.set_cons_succ, List.set_cons_zero]
        exact cons_set_perm t k a x hi
      | succ m =>
        simp only [List.get?_cons_succ] at hj
        simp only [List.set_cons_succ]
        exact List.Perm.cons x (ih k m a b hi hj)

/-- `listSwap` always returns a permutation of its input. -/
theorem listSwap_perm {α : Type} (l : List α) (i j : Nat) :
    List.Perm (listSwap l i j) l := by
  unfold listSwap
  split
  · rename_i a b hi hj
    exact set_set_perm l i j a b hi hj
  · exact List.Perm.refl l

/-- Every Fisher-Yates run is a permutation of the input list. -/
theorem fyLoop_perm {α : Type} :
    ∀ (n : Nat) (s : Nat) (l : List α), List.Perm (fyLoop n s l) l := by
  intro n
  induction n with
  | zero => intro s l; exact List.Perm.refl l
  | succ i ih =>
    intro s l
    exact (ih _ _).trans (listSwap_perm l (i + 1) _)

/-- `seededShuffle` returns a permutation of its input, for every seed. -/
theorem seededShuffle_perm {α : Type} (l : List α) (seed : Nat) :
    List.Perm (seededShuffle l seed) l :=
  fyLoop_perm _ _ _

/-! ### Text normalisation and hashing (`generate-daily.cjs` lines 92-109) -/

/-- JavaScript `\s` / `String.prototype.trim` whitespace (WhiteSpace ∪
LineTerminator of the ECMAScript spec). -/
def isJsSpace (c : Char) : Bool :=
  c == ' ' || c == '\t' || c == '\n' || c.toNat == 13 || c.toNat == 11 ||
  c.toNat == 12 || c.toNat == 0xa0 || c.toNat == 0x1680 ||
  (0x2000 ≤ c.toNat && c.toNat ≤ 0x200a) || c.toNat == 0x2028 ||
  c.toNat == 0x2029 || c.toNat == 0x202f || c.toNat == 0x205f ||
  c.toNat == 0x3000 || c.toNat == 0xfeff

/-- `replace(/\s+/g, ' ')`: collapse every whitespace run to a single space.
The flag records whether the previous character was part of a run. -/
def collapseWsAux (inRun : Bool) : List Char → List Char
  | [] => []
  | c :: t =>
    if isJsSpace c then
      if inRun then collapseWsAux true t else ' ' :: collapseWsAux true t
    else c :: collapseWsAux false t

/-- JS `trim()`: strip leading and trailing whitespace. -/
def jsTrim (l : List Char) : List Char :=
  ((l.dropWhile isJsSpace).reverse.dropWhile isJsSpace).reverse

/-- ASCII lower-casing, the fragment of JS `toLowerCase()` exercised by the
generator (category names and trivia text are ASCII/Latin-1; non-ASCII
letters such as `é` are already lower case). -/
def lowerA (c : Char) : Char :=
  if 'A' ≤ c && c ≤ 'Z' then Char.ofNat (c.toNat + 32) else c

/-- `normalizeText` (lines 101-103):
`String(s).replace(/\s+/g,' ').trim().toLowerCase()`. -/
def normalizeText (s : String) : String :=
  String.mk ((jsTrim (collapseWsAux false s.toList)).map lowerA)

/-- One step of the FNV-1a loop (lines 93-99).  `h ^= charCode` then
`h = (h + ((h<<1) + (h<<4) + (h<<7) + (h<<8) + (h<<24))) >>> 0`; every shift
is a 32-bit coercion, and the JS double sum is exact before the final
`>>> 0`, so each term and the total reduce `% 2^32`. -/
def fnvStep (h c : Nat) : Nat :=
  let h1 := h ^^^ c
  (h1 + ((h1 <<< 1) % M32 + (h1 <<< 4) % M32 + (h1 <<< 7) % M32 +
    (h1 <<< 8) % M32 + (h1 <<< 24) % M32)) % M32

/-- The 32-bit FNV-1a state after hashing the string; `charCodeAt` equals the
code point for the BMP texts handled here. -/
def fnv1aNat (s : String) : Nat :=
  s.toList.foldl (fun h c => fnvStep h c.toNat) 0x811c9dc5

/-- Hex digit in the lowercase alphabet of JS `Number.prototype.toString(16)`. -/
def hexDigitChar (n : Nat) : Char :=
  if n < 10 then Char.ofNat (48 + n) else Char.ofNat (87 + n)

/-- `('0000000' + h.toString(16)).slice(-8)`: the zero-padded 8-digit hex
form of a 32-bit value, one nibble per character. -/
def toHex8 (h : Nat) : String :=
  String.mk [hexDigitChar (h / 16 ^ 7 % 16), hexDigitChar (h / 16 ^ 6 % 16),
    hexDigitChar (h / 16 ^ 5 % 16), hexDigitChar (h / 16 ^ 4 % 16),
    hexDigitChar (h / 16 ^ 3 % 16), hexDigitChar (h / 16 ^ 2 % 16),
    hexDigitChar (h / 16 % 16), hexDigitChar (h % 16)]

/-- `fnv1a(str)` (lines 93-100): the 8-digit hex key used by the ledger. -/
def fnv1a (s : String) : String := toHex8 (fnv1aNat s)

/-- Value of one hex digit, as accepted by `parseInt(-, 16)`. -/
def hexVal (c : Char) : Nat :=
  if '0' ≤ c && c ≤ '9' then c.toNat - 48
  else if 'a' ≤ c && c ≤ 'f' then c.toNat - 87
  else if 'A' ≤ c && c ≤ 'F' then c.toNat - 55
  else 0

/-- `parseInt(s, 16)` on the well-formed 8-hex-digit strings produced by
`fnv1a` (sign/whitespace/invalid-suffix handling of `parseInt` is never
exercised on them). -/
def parseHex (s : String) : Nat :=
  s.toList.foldl (fun a c => a * 16 + hexVal c) 0

/-- `qKeyFromRaw(question, correct)` (lines 104-106):
`fnv1a(normalizeText(question) + '|' + normalizeText(correct))`. -/
def qKeyFromRaw (question correct : String) : String :=
  fnv1a (normalizeText question ++ "|" ++ normalizeText correct)

/-! ### JS array indexing helpers -/

/-- `Array.prototype.indexOf` with `===` string equality: index of the first
occurrence, `-1` when absent (line 413). -/
def jsIndexOf : List String → String → Int
  | [], _ => -1
  | a :: t, x =>
    if a = x then 0
    else
      let r := jsIndexOf t x
      if r < 0 then -1 else r + 1

/-- `options[i]` under JS indexing (line 430): a negative or out-of-range
index yields `undefined`, which the `normalizeText(s = '')` default turns
into the empty string downstream, so we return `""` there. -/
def optionsAt (l : List String) (i : Int) : String :=
  if 0 ≤ i then l.getD i.toNat "" else ""

theorem jsIndexOf_nonneg :
    ∀ (l : List String) (x : String), x ∈ l → 0 ≤ jsIndexOf l x := by
  intro l
  induction l with
  | nil => intro x h; simp at h
  | cons a t ih =>
    intro x hx
    by_cases hax : a = x
    · simp [jsIndexOf, hax]
    · have hxt : x ∈ t := by
        rcases List.mem_cons.mp hx with h | h
        · exact absurd h.symm hax
        · exact h
      have hr := ih x hxt
      simp only [jsIndexOf, if_neg hax]
      have : ¬ jsIndexOf t x < 0 := not_lt.mpr hr
      simp only [this, if_false]
      omega

/-- Indexing at the `indexOf` of a present element recovers that element. -/
theorem optionsAt_jsIndexOf :
    ∀ (l : List String) (x : String), x ∈ l →
      optionsAt l (jsIndexOf l x) = x := by
  intro l
  induction l with
  | nil => intro x h; simp at h
  | cons a t ih =>
    intro x hx
    by_cases hax : a = x
    · simp [jsIndexOf, optionsAt, hax]
    · have hxt : x ∈ t := by
        rcases List.mem_cons.mp hx with h | h
        · exact absurd h.symm hax
        · exact h
      have hr := jsIndexOf_nonneg t x hxt
      have hlt : ¬ jsIndexOf t x < 0 := not_lt.mpr hr
      have hih := ih x hxt
      simp only [optionsAt, if_pos hr] at hih
      simp only [jsIndexOf, if_neg hax, hlt, if_false, optionsAt]
      have hge : (0 : Int) ≤ jsIndexOf t x + 1 := by omega
      simp only [if_pos hge]
      have htn : (jsIndexOf t x + 1).toNat = (jsIndexOf t x).toNat + 1 := by
        omega
      rw [htn, List.getD_cons_succ]
      exact hih

/-! ### A small regular-expression evaluator

`EASY_FILTER.BAN_PATTERNS` (lines 36-47) are eleven fixed regexes using only
literals, alternation, `\b`, `\s+`, `[0-9]{1,4}`, and `.*`.  We evaluate them
with a nondeterministic matcher over `List Char`: a match state is the
optional previous character (for `\b`) plus the remaining suffix, and a
pattern maps a state to every state it can reach, so `rx.test` is "some
start position admits a nonempty state set".  Case-insensitive (`/i`)
patterns are evaluated on the lower-cased subject with lower-cased literals;
`\b`, `\s`, and `[0-9]` are unaffected by case. -/

inductive Rx : Type where
  | lit : List Char → Rx
  | cls : (Char → Bool) → Rx
  | alt : Rx → Rx → Rx
  | cat : Rx → Rx → Rx
  | wordB : Rx
  | starCls : (Char → Bool) → Rx

/-- Previous-character component after consuming a literal. -/
def lastCharOpt (w : List Char) (pc : Option Char) : Option Char :=
  match w.getLast? with
  | some c => some c
  | none => pc

/-- JS `\w` (ASCII word character), the class `\b` is defined from. -/
def isWordChar (c : Char) : Bool :=
  ('a' ≤ c && c ≤ 'z') || ('A' ≤ c && c ≤ 'Z') || ('0' ≤ c && c ≤ '9') ||
    c == '_'

/-- `\b` holds between a word and a non-word position (ends count as
non-word). -/
def atBoundary (pc : Option Char) (s : List Char) : Bool :=
  (match pc with | some c => isWordChar c | none => false) !=
    (match s.head? with | some c => isWordChar c | none => false)

/-- All ways `starCls`-style repetition of a class can split the input. -/
def starSplits (p : Char → Bool) :
    Option Char → List Char → List (Option Char × List Char)
  | pc, [] => [(pc, [])]
  | pc, c :: t => (pc, c :: t) :: (if p c then starSplits p (some c) t else [])

/-- All states reachable by matching `r` at the start of `s` with previous
character `pc`. -/
def mrun : Rx → Option Char → List Char → List (Option Char × List Char)
  | .lit w, pc, s =>
    if w.isPrefixOf s then [(lastCharOpt w pc, s.drop w.length)] else []
  | .cls p, _, s =>
    match s with
    | [] => []
    | c :: t => if p c then [(some c, t)] else []
  | .alt a b, pc, s => mrun a pc s ++ mrun b pc s
  | .cat a b, pc, s => (mrun a pc s).flatMap fun st => mrun b st.1 st.2
  | .wordB, pc, s => if atBoundary pc s then [(pc, s)] else []
  | .starCls p, pc, s => starSplits p pc s

/-- Does `r` match starting at some position at or after the current one? -/
def searchFrom (r : Rx) : Option Char → List Char → Bool
  | pc, [] => !(mrun r pc []).isEmpty
  | pc, c :: t =>
    if (mrun r pc (c :: t)).isEmpty then searchFrom r (some c) t else true

/-- `rx.test(s)`: a match exists at some position. -/
def rxTest (r : Rx) (s : List Char) : Bool := searchFrom r none s

/-- `r?` -/
def rOpt (r : Rx) : Rx := .alt r (.lit [])

/-- `p+` for a character class: one occurrence then any number more. -/
def rPlus (p : Char → Bool) : Rx := .cat (.cls p) (.starCls p)

/-- `\b w \b` for a literal word. -/
def rWord (w : String) : Rx := .cat .wordB (.cat (.lit w.toList) .wordB)

/-- `[0-9]` -/
def isDigit09 (c : Char) : Bool := '0' ≤ c && c ≤ '9'

/-- `.` (no dot-all flag): any character except a JS LineTerminator. -/
def notLineTerm (c : Char) : Bool :=
  !(c.toNat == 10 || c.toNat == 13 || c.toNat == 0x2028 || c.toNat == 0x2029)

/-! The eleven `BAN_PATTERNS` in source order. -/

/-- `/\b(in|which|what)\s+year\b/i` -/
def rxYear : Rx :=
  .cat .wordB (.cat (.alt (.lit "in".toList)
      (.alt (.lit "which".toList) (.lit "what".toList)))
    (.cat (rPlus isJsSpace) (.cat (.lit "year".toList) .wordB)))

/-- `/\bwhich of (the|these)\b/i` -/
def rxWhichOf : Rx :=
  .cat .wordB (.cat (.lit "which of ".toList)
    (.cat (.alt (.lit "the".toList) (.lit "these".toList)) .wordB))

/-- `/\bfollowing\b/i` -/
def rxFollowing : Rx := rWord "following"

/-- `/\bNOT\b/` (case-sensitive) -/
def rxNOT : Rx := rWord "NOT"

/-- `/\bEXCEPT\b/` (case-sensitive) -/
def rxEXCEPT : Rx := rWord "EXCEPT"

/-- `/\broman\s+numeral\b/i` -/
def rxRoman : Rx :=
  .cat .wordB (.cat (.lit "roman".toList)
    (.cat (rPlus isJsSpace) (.cat (.lit "numeral".toList) .wordB)))

/-- `/\bchemical\b/i` -/
def rxChemical : Rx := rWord "chemical"

/-- `/\bformula\b/i` -/
def rxFormula : Rx := rWord "formula"

/-- `/\bequation\b/i` -/
def rxEquation : Rx := rWord "equation"

/-- `/\bprime\s+number\b/i` -/
def rxPrime : Rx :=
  .cat .wordB (.cat (.lit "prime".toList)
    (.cat (rPlus isJsSpace) (.cat (.lit "number".toList) .wordB)))

/-- `[0-9]{1,4}` -/
def rxDigits14 : Rx :=
  .cat (.cls isDigit09) (rOpt (.cat (.cls isDigit09)
    (rOpt (.cat (.cls isDigit09) (rOpt (.cls isDigit09))))))

/-- `/\b(nth|[0-9]{1,4}(st|nd|rd|th))\b.*\bcentury\b/i` -/
def rxCentury : Rx :=
  .cat .wordB (.cat (.alt (.lit "nth".toList)
      (.cat rxDigits14 (.alt (.lit "st".toList) (.alt (.lit "nd".toList)
        (.alt (.lit "rd".toList) (.lit "th".toList))))))
    (.cat .wordB (.cat (.starCls notLineTerm)
      (.cat .wordB (.cat (.lit "century".toList) .wordB)))))

/-- Run a `/.../i` pattern: lower-case the subject (patterns above are
written lower case). -/
def ciTest (r : Rx) (s : String) : Bool := rxTest r (s.toList.map lowerA)

/-- Run a case-sensitive pattern. -/
def csTest (r : Rx) (s : String) : Bool := rxTest r s.toList

/-- `EASY_FILTER.BAN_PATTERNS` (lines 36-47), in source order, as `test`
functions. -/
def BAN_PATTERNS : List (String → Bool) :=
  [ciTest rxYear, ciTest rxWhichOf, ciTest rxFollowing, csTest rxNOT,
   csTest rxEXCEPT, ciTest rxRoman, ciTest rxChemical, ciTest rxFormula,
   ciTest rxEquation, ciTest rxPrime, ciTest rxCentury]

/-- `hasBannedPhrase(text)` (lines 153-155):
`EASY_FILTER.BAN_PATTERNS.some(rx => rx.test(text))`. -/
def hasBannedPhrase (text : String) : Bool :=
  BAN_PATTERNS.any fun f => f text

/-! ### Question records and the content filter (lines 33-60, 148-187)

OpenTDB results (after `basicClean`, line 162-178) and normalised LLM output
(lines 238-244) both carry the question text in the `question` field, so the
defensive `q.question || q.text || ''` alternatives in the script always
resolve to `question`; absent `category`/`difficulty` are the empty string. -/

structure RawQ where
  category : String
  question : String
  correct_answer : String
  incorrect_answers : List String
  difficulty : String
deriving DecidableEq, Repr

/-- `EASY_FILTER.MAX_QUESTION_LEN` -/
def MAX_QUESTION_LEN : Nat := 110

/-- `EASY_FILTER.MAX_OPTION_LEN` -/
def MAX_OPTION_LEN : Nat := 36

/-- `EASY_FILTER.ALLOW_CATEGORIES` (lines 49-59). -/
def ALLOW_CATEGORIES : List String :=
  ["General Knowledge", "Geography", "Science & Nature",
   "Entertainment: Film", "Entertainment: Music", "Entertainment: Television",
   "Entertainment: Books", "Sports", "Celebrities"]

/-- `isRelatableCategory(cat)` (lines 149-152): a missing (empty) category
does not exclude; otherwise exact set membership. -/
def isRelatableCategory (cat : String) : Bool :=
  if cat = "" then true else ALLOW_CATEGORIES.contains cat

/-- `withinLength(q)` (lines 156-161): trimmed question text within
`MAX_QUESTION_LEN`; every non-empty option (`filter(Boolean)`) trimmed
within `MAX_OPTION_LEN`. -/
def withinLength (q : RawQ) : Bool :=
  let qlen := (jsTrim q.question.toList).length
  if qlen > MAX_QUESTION_LEN then false
  else
    ((q.correct_answer :: q.incorrect_answers).filter (fun o => o != "")).all
      fun o => (jsTrim o.toList).length ≤ MAX_OPTION_LEN

/-- `(qt.match(/[A-Z]/g) || []).length` -/
def countUpper (s : String) : Nat :=
  (s.toList.filter fun c => 'A' ≤ c && c ≤ 'Z').length

/-- `(qt.match(/[a-z]/g) || []).length` -/
def countLower (s : String) : Nat :=
  (s.toList.filter fun c => 'a' ≤ c && c ≤ 'z').length

/-- `passEasyFilter(q)` (lines 179-187), with the source's early returns:
length bounds, no banned phrase, relatable category, and the
shouting heuristic (more than twice as many capitals as lower-case
letters). -/
def passEasyFilter (q : RawQ) : Bool :=
  let qt := q.question
  if !withinLength q then false
  else if hasBannedPhrase qt then false
  else if !isRelatableCategory q.category then false
  else if countUpper qt > countLower qt * 2 then false
  else true

/-! ### Day / index calculator (lines 30, 79-90) -/

/-- `START_DAY` (line 30). -/
def START_DAY : String := "20250824"

/-- Day number of a proleptic-Gregorian civil date relative to 1970-01-01
(Howard Hinnant's `days_from_civil` in floor-division form).  This is what
the ECMAScript `Date.UTC(y, m-1, d) / 86400000` built-in computes for month
values 1-12; the day component may lie outside the month and extends
linearly, exactly as ECMAScript `MakeDay` does. -/
def daysFromCivil (y m d : Int) : Int :=
  let y1 := if m ≤ 2 then y - 1 else y
  let era := y1 / 400
  let yoe := y1 - era * 400
  let mp := if 2 < m then m - 3 else m + 9
  let doy := (153 * mp + 2) / 5 + d - 1
  let doe := yoe * 365 + yoe / 4 - yoe / 100 + doy
  era * 146097 + doe - 719468

/-- ECMAScript `MakeDay`: months outside 0-11 roll the year. -/
def makeDayUTC (y mIdx d : Int) : Int :=
  let ym := y * 12 + mIdx
  daysFromCivil (ym / 12) (ym % 12 + 1) d

/-- Decimal value of a digit string, as `Number()` computes it on the
all-digit slices of a well-formed `YYYYMMDD` string. -/
def decDigits (l : List Char) : Nat :=
  l.foldl (fun a c => a * 10 + (c.toNat - 48)) 0

/-- The UTC day number that `toUTCDate` (lines 79-84) lands on: slice out
the three numeric fields of the `YYYYMMDD` string and apply `Date.UTC`.
Modelled `Date.UTC` behaviour: integer years 0-99 map to 1900-1999 and
month/day arithmetic normalises.  `Number()` of a non-numeric slice (`NaN`)
is outside the model; the script only passes well-formed `YYYYMMDD` strings
(from `yyyymmdd()` and `START_DAY`). -/
def utcDayNumber (s : String) : Int :=
  let y : Int := (decDigits (s.toList.take 4) : Nat)
  let m : Int := (decDigits ((s.toList.drop 4).take 2) : Nat)
  let d : Int := (decDigits ((s.toList.drop 6).take 2) : Nat)
  let yy := if y ≤ 99 then 1900 + y else y
  makeDayUTC yy (m - 1) d

/-- `toUTCDate(yyyyMMdd)` (lines 79-84): the `Date.UTC` millisecond value,
`86400000` ms per day since the day number is an exact UTC midnight. -/
def toUTCDate (s : String) : Int := 86400000 * utcDayNumber s

/-- `Math.round(num / den)` for a positive `den`, computed exactly: rounding
half towards `+∞` is `⌊(2·num + den) / (2·den)⌋`, and `Int./` is floor
division for positive divisors. -/
def jsRound (num den : Int) : Int := (2 * num + den) / (2 * den)

/-- `Math.max(0, x)` for an integer argument. -/
def jsMax0 (x : Int) : Int := if x < 0 then 0 else x

/-- `dayIndexFrom(startYmd, todayYmd)` (lines 85-90):
`1 + Math.max(0, Math.round((toUTCDate(todayYmd) - toUTCDate(startYmd)) / 86400000))`. -/
def dayIndexFrom (startYmd todayYmd : String) : Int :=
  1 + jsMax0 (jsRound (toUTCDate todayYmd - toUTCDate startYmd) 86400000)

/-- On exact multiples of the divisor, `Math.round` agrees with floor
division. -/
theorem jsRound_mul (k : Int) : jsRound (86400000 * k) 86400000 = k := by
  unfold jsRound
  have h1 : 2 * (86400000 * k) + 86400000 = 86400000 + 172800000 * k := by
    ring
  rw [h1]
  have h2 : (2 : Int) * 86400000 = 172800000 := by norm_num
  rw [h2, Int.add_mul_ediv_left 86400000 k (by norm_num : (172800000 : Int) ≠ 0)]
  norm_num

theorem ediv_mul_86400000 (k : Int) : 86400000 * k / 86400000 = k :=
  Int.mul_ediv_cancel_left k (by norm_num)

/-! ### Selection pipeline (lines 254-434)

Model boundary: pools are the values returned by `fetchPool` (network JSON
already entity-decoded by `basicClean`, line 194), and the optional LLM list
is `gen.map(basicClean)` (line 386) — present exactly when `OPENAI_API_KEY`
is set and the LLM call succeeded.  The ledger is the `used.seen` array as
loaded at lines 263-270 (missing/corrupt files already collapsed to `[]`). -/

/-- `qKey(q)` (lines 107-109): `qKeyFromRaw(q.question || q.text || '',
q.correct_answer || '')`.  Every object reaching it went through
`basicClean`/the LLM normaliser, which store the text in `question`, so the
`|| q.text` fallback resolves to `question` (also when both are empty). -/
def qKey (q : RawQ) : String := qKeyFromRaw q.question q.correct_answer

/-- The `dedupe` closure (lines 282-292): drop questions whose key is in the
ledger `seen` set or already seen earlier in the same pool. -/
def dedupeGo (seen : List String) : List String → List RawQ → List RawQ
  | _, [] => []
  | localSeen, q :: rest =>
    let key := qKey q
    if seen.contains key || localSeen.contains key then
      dedupeGo seen localSeen rest
    else q :: dedupeGo seen (key :: localSeen) rest

def dedupe (seen : List String) (arr : List RawQ) : List RawQ :=
  dedupeGo seen [] arr

/-- ASCII `toLowerCase` on a string. -/
def lowerStr (s : String) : String := String.mk (s.toList.map lowerA)

/-- `(q.category || '').toLowerCase() === 'general knowledge'`
(lines 304, 324). -/
def isGKlower (q : RawQ) : Bool := lowerStr q.category == "general knowledge"

/-- `favorGK(arr)` (lines 303-307): stable partition, General Knowledge
first. -/
def favorGK (arr : List RawQ) : List RawQ :=
  arr.filter isGKlower ++ arr.filter fun q => !isGKlower q

/-- `pick(arr, n)` (line 321): `arr.slice(0, Math.max(0, Math.min(n, arr.length)))`. -/
def pick (arr : List RawQ) (n : Nat) : List RawQ := arr.take (min n arr.length)

/-- `needGK` (line 325). -/
def needGK : Nat := 2

/-- The `uniqueGK` loop (lines 330-338): keep the first `needGK` key-distinct
GK picks. -/
def uniqueGKgo : List RawQ → List String → List RawQ → List RawQ
  | acc, _, [] => acc
  | acc, keys, q :: rest =>
    let k := qKey q
    if !(keys.contains k) && acc.length < needGK then
      uniqueGKgo (acc ++ [q]) (k :: keys) rest
    else uniqueGKgo acc keys rest

/-- Lines 344-346: push `q` unless a chosen question already has its key. -/
def pushIfNew (chosen : List RawQ) (q : RawQ) : List RawQ :=
  if chosen.any (fun x => qKey x == qKey q) then chosen else chosen ++ [q]

/-- The `addFrom` helper (lines 349-357): walk the pool, skip key
duplicates, stop at five chosen or when `--howMany <= 0`.  (`Nat`
subtraction makes the `howMany = 0` call push one element and stop, exactly
as `--0 <= 0` does.) -/
def addFrom : List RawQ → Nat → List RawQ → List RawQ
  | chosen, _, [] => chosen
  | chosen, howMany, q :: rest =>
    if chosen.length ≥ 5 then chosen
    else if chosen.any (fun x => qKey x == qKey q) then addFrom chosen howMany rest
    else
      let chosen' := chosen ++ [q]
      if howMany - 1 = 0 then chosen' else addFrom chosen' (howMany - 1) rest

/-- `dropChosen(arr)` (line 360) for a given `chosen`. -/
def dropChosen (chosen arr : List RawQ) : List RawQ :=
  arr.filter fun q => !(chosen.any fun x => qKey x == qKey q)

/-- Steps 3 of the pipeline (lines 320-377): GK guarantee, then difficulty
quota top-ups, then the remainder fill, in source order. -/
def selectChosen (easy medium hard : List RawQ) : List RawQ :=
  let easyGK := easy.filter isGKlower
  let medGK := medium.filter isGKlower
  let gkPicks := pick easyGK needGK ++ pick medGK (needGK - min needGK easyGK.length)
  let uniqueGK := uniqueGKgo [] [] gkPicks
  let chosen0 := uniqueGK.foldl pushIfNew []
  let easyAvail := dropChosen chosen0 easy
  let medAvail := dropChosen chosen0 medium
  let hardAvail := dropChosen chosen0 hard
  let chosen1 := addFrom chosen0 2 easyAvail
  let easyAvail1 := dropChosen chosen1 easyAvail
  let chosen2 := addFrom chosen1 2 medAvail
  let medAvail1 := dropChosen chosen2 medAvail
  let chosen3 := addFrom chosen2 1 hardAvail
  let hardAvail1 := dropChosen chosen3 hardAvail
  let remainder := easyAvail1 ++ medAvail1 ++ hardAvail1
  addFrom chosen3 (5 - chosen3.length) remainder

/-- `validGen(q)` (lines 246-251) for the LLM output. -/
def validGen (q : RawQ) : Bool :=
  if q.question == "" || q.correct_answer == "" then false
  else if q.incorrect_answers.length != 3 then false
  else if !isRelatableCategory q.category then false
  else passEasyFilter q

/-- `(q.category || '') === 'General Knowledge'` (lines 391-393),
case-sensitive. -/
def isGKexact (q : RawQ) : Bool := q.category == "General Knowledge"

/-- The LLM top-up loop (lines 395-399): push key-fresh questions until five
are chosen. -/
def fillTo5 : List RawQ → List RawQ → List RawQ
  | chosen, [] => chosen
  | chosen, q :: rest =>
    if chosen.length ≥ 5 then chosen
    else if chosen.any (fun x => qKey x == qKey q) then fillTo5 chosen rest
    else fillTo5 (chosen ++ [q]) rest

/-- The LLM fallback block (lines 380-403): only entered when fewer than five
are chosen; cleans `gen` through `validGen`, drops ledger keys, sorts General
Knowledge first (the comparator `(b GK) - (a GK)` under the stable Array sort
is exactly this partition) and tops up. -/
def llmTopUp (seen : List String) (chosen : List RawQ) (gen : List RawQ) :
    List RawQ :=
  if chosen.length ≥ 5 then chosen
  else
    let llmClean := (gen.filter validGen).filter fun q =>
      !(seen.contains (qKey q))
    let sorted := llmClean.filter isGKexact ++
      llmClean.filter fun q => !isGKexact q
    fillTo5 chosen sorted

/-- An `OutputQuestion` of the daily artifact (lines 415-421). -/
structure OutQ where
  text : String
  options : List String
  correct : Int
  difficulty : String
  category : String
deriving DecidableEq, Repr

/-- Positional difficulty default (line 414). -/
def posDiff (idx : Nat) : String :=
  if idx < 2 then "easy" else if idx < 4 then "medium" else "hard"

/-- One entry of the `final` map (lines 410-422): shuffle
`[correct_answer, ...incorrect_answers]` with seed `(seedBase + idx*7) >>> 0`
and locate the correct answer by `indexOf`. -/
def mkOut (sb idx : Nat) (q : RawQ) : OutQ :=
  let rawOpts := q.correct_answer :: q.incorrect_answers
  let opts := seededShuffle rawOpts ((sb + idx * 7) % M32)
  { text := q.question
    options := opts
    correct := jsIndexOf opts q.correct_answer
    difficulty :=
      let d := lowerStr q.difficulty
      if d == "" then posDiff idx else d
    category := if q.category == "" then "General Knowledge" else q.category }

/-- `chosen.slice(0, 5).map((q, idx) => ...)` (line 410ff). -/
def mkFinalGo (sb : Nat) : Nat → List RawQ → List OutQ
  | _, [] => []
  | idx, q :: rest => mkOut sb idx q :: mkFinalGo sb (idx + 1) rest

/-- `Number(s)` for the all-digit day strings fed to the seed XOR
(a malformed string would give `NaN`, which the JS `^` coerces to `0`;
only digit strings from `yyyymmdd()` reach this). -/
def jsNumberNat (s : String) : Nat :=
  if s.toList.all (fun c => '0' ≤ c && c ≤ '9') then decDigits s.toList else 0

/-- `seedBase` (line 408):
`Number(today) ^ (REROLL_NONCE ? parseInt(fnv1a(REROLL_NONCE), 16) >>> 0 : 0)`. -/
def seedBase (today nonce : String) : Nat :=
  jsNumberNat today ^^^ (if nonce = "" then 0 else parseHex (fnv1a nonce))

/-- The daily artifact (lines 425, 443-453).  The fallback artifact carries
no `reroll` field, hence the `Option`. -/
structure DailyArtifact where
  day : String
  dayIndex : Int
  reroll : Option Bool
  questions : List OutQ
deriving DecidableEq, Repr

/-- The reroll reshuffle `mix` (lines 311-318): with a non-empty nonce the
pool is reshuffled with seed `parseInt(fnv1a(nonce + today), 16) ^ salt`. -/
def mixIfNonce (today nonce : String) (salt : Nat) (arr : List RawQ) :
    List RawQ :=
  if nonce = "" then arr
  else seededShuffle arr (parseHex (fnv1a (nonce ++ today)) ^^^ salt)

/-- The easy pool after steps 2-2c (lines 294-318): filter, dedupe, favour
GK, optional nonce reshuffle with salt `0x1111`. -/
def prepEasy (today nonce : String) (seen : List String)
    (easyPool : List RawQ) : List RawQ :=
  mixIfNonce today nonce 0x1111 (favorGK (dedupe seen
    (easyPool.filter passEasyFilter)))

/-- The medium pool after steps 2-2c, salt `0x2222`. -/
def prepMedium (today nonce : String) (seen : List String)
    (medPool : List RawQ) : List RawQ :=
  mixIfNonce today nonce 0x2222 (favorGK (dedupe seen
    (medPool.filter passEasyFilter)))

/-- The hard pool after steps 2-2c: no `favorGK` (line 308-309 only touches
easy and medium), salt `0x3333`. -/
def prepHard (today nonce : String) (seen : List String)
    (hardPool : List RawQ) : List RawQ :=
  mixIfNonce today nonce 0x3333 (dedupe seen (hardPool.filter passEasyFilter))

/-- The `chosen` list as it stands at the line 405 length check: selection
over the prepared pools, plus the LLM top-up when a key is configured and
the LLM call succeeded. -/
def chosenFinal (today nonce : String) (seen : List String)
    (easyPool medPool hardPool : List RawQ) (llm : Option (List RawQ)) :
    List RawQ :=
  let chosen0 := selectChosen (prepEasy today nonce seen easyPool)
    (prepMedium today nonce seen medPool) (prepHard today nonce seen hardPool)
  match llm with
  | some gen => llmTopUp seen chosen0 gen
  | none => chosen0

/-- The ledger key of an output question as computed on line 430:
`qKeyFromRaw(q.text, q.options[q.correct])`. -/
def outKeyOf (oq : OutQ) : String :=
  qKeyFromRaw oq.text (optionsAt oq.options oq.correct)

/-- The `payload` object (line 425). -/
def artifactPayload (today nonce : String) (cf : List RawQ) : DailyArtifact :=
  { day := today, dayIndex := dayIndexFrom START_DAY today,
    reroll := some (nonce != ""),
    questions := mkFinalGo (seedBase today nonce) 0 (cf.take 5) }

/-- The whole `try` block after the pools are fetched (lines 280-434):
either fail (`none` = the line 405 throw, before any write) or produce the
artifact payload and the merged ledger (`MAX_LEDGER` is `null`, so the merge
is not truncated). -/
def buildArtifact (today nonce : String) (seen : List String)
    (easyPool medPool hardPool : List RawQ) (llm : Option (List RawQ)) :
    Option (DailyArtifact × List String) :=
  if (chosenFinal today nonce seen easyPool medPool hardPool llm).length < 5
  then none
  else
    some (artifactPayload today nonce
        (chosenFinal today nonce seen easyPool medPool hardPool llm),
      seen ++ (artifactPayload today nonce
        (chosenFinal today nonce seen easyPool medPool hardPool llm)).questions.map
          outKeyOf)

/-- The two persisted files: `daily.json` (absent before the first run) and
the `seen` array of `used.json`. -/
structure FileState where
  daily : Option DailyArtifact
  seen : List String
deriving DecidableEq, Repr

/-- The hardcoded fallback questions (lines 446-452). -/
def fallbackQuestions : List OutQ :=
  [{ text := "What is the capital of France?",
     options := ["Paris", "Rome", "Madrid", "Berlin"], correct := 0,
     difficulty := "easy", category := "General Knowledge" },
   { text := "Which planet is known as the Red Planet?",
     options := ["Mars", "Jupiter", "Venus", "Saturn"], correct := 0,
     difficulty := "easy", category := "Science & Nature" },
   { text := "What is H2O commonly called?",
     options := ["Water", "Hydrogen", "Oxygen", "Salt"], correct := 0,
     difficulty := "medium", category := "Science & Nature" },
   { text := "How many minutes are in an hour?",
     options := ["60", "30", "90", "120"], correct := 0,
     difficulty := "medium", category := "General Knowledge" },
   { text := "Which number is a prime?",
     options := ["13", "21", "27", "33"], correct := 0,
     difficulty := "hard", category := "General Knowledge" }]

/-- The fallback artifact written by the `catch` block (lines 443-453). -/
def fallbackArtifact (today : String) : DailyArtifact :=
  { day := today, dayIndex := dayIndexFrom START_DAY today, reroll := none,
    questions := fallbackQuestions }

/-- The `catch` block (lines 436-457): keep an existing `daily.json`
untouched, write the fallback only when none exists; `used.json` is never
written here. -/
def catchBranch (st : FileState) (today : String) : FileState :=
  match st.daily with
  | some _ => st
  | none => { daily := some (fallbackArtifact today), seen := st.seen }

/-- One whole invocation as a state transition on the persisted files.
`fetched = none` models the pool fetch throwing after its retries; the
`none` result of `buildArtifact` is the line 405 throw.  Both land in the
`catch` block. -/
def runDaily (st : FileState) (today nonce : String)
    (fetched : Option (List RawQ × List RawQ × List RawQ))
    (llm : Option (List RawQ)) : FileState :=
  match fetched with
  | none => catchBranch st today
  | some pools =>
    match buildArtifact today nonce st.seen pools.1 pools.2.1 pools.2.2 llm with
    | some (a, ns) => { daily := some a, seen := ns }
    | none => catchBranch st today

/-! ### Provenance and freshness of the chosen questions -/

theorem contains_true_iff (l : List String) (a : String) :
    l.contains a = true ↔ a ∈ l := List.elem_iff

/-- Nothing surviving `dedupe` carries a ledger key. -/
theorem dedupeGo_fresh (seen : List String) :
    ∀ (l : List RawQ) (localSeen : List String) (q : RawQ),
      q ∈ dedupeGo seen localSeen l → qKey q ∉ seen := by
  intro l
  induction l with
  | nil => intro localSeen q h; simp [dedupeGo] at h
  | cons p rest ih =>
    intro localSeen q hq
    simp only [dedupeGo] at hq
    split at hq
    · exact ih localSeen q hq
    · rename_i hcond
      rcases List.mem_cons.mp hq with hqp | hmem
      · subst hqp
        intro hseen
        apply hcond
        simp only [Bool.or_eq_true]
        exact Or.inl ((contains_true_iff seen (qKey q)).mpr hseen)
      · exact ih _ q hmem

theorem dedupe_fresh (seen : List String) (l : List RawQ) (q : RawQ)
    (hq : q ∈ dedupe seen l) : qKey q ∉ seen :=
  dedupeGo_fresh seen l [] q hq

theorem pushIfNew_mem (c : List RawQ) (p q : RawQ)
    (hq : q ∈ pushIfNew c p) : q ∈ c ∨ q = p := by
  unfold pushIfNew at hq
  split at hq
  · exact Or.inl hq
  · rcases List.mem_append.mp hq with h | h
    · exact Or.inl h
    · exact Or.inr (List.mem_singleton.mp h)

theorem foldl_pushIfNew_mem :
    ∀ (l init : List RawQ) (q : RawQ),
      q ∈ l.foldl pushIfNew init → q ∈ init ∨ q ∈ l := by
  intro l
  induction l with
  | nil => intro init q h; exact Or.inl h
  | cons p rest ih =>
    intro init q hq
    rcases ih (pushIfNew init p) q hq with h | h
    · rcases pushIfNew_mem init p q h with h' | h'
      · exact Or.inl h'
      · exact Or.inr (by simp [h'])
    · exact Or.inr (List.mem_cons_of_mem p h)

theorem uniqueGKgo_mem :
    ∀ (l : List RawQ) (acc : List RawQ) (keys : List String) (q : RawQ),
      q ∈ uniqueGKgo acc keys l → q ∈ acc ∨ q ∈ l := by
  intro l
  induction l with
  | nil => intro acc keys q h; exact Or.inl (by simpa [uniqueGKgo] using h)
  | cons p rest ih =>
    intro acc keys q hq
    simp only [uniqueGKgo] at hq
    split at hq
    · rcases ih _ _ q hq with h | h
      · rcases List.mem_append.mp h with h' | h'
        · exact Or.inl h'
        · exact Or.inr (by simp [List.mem_singleton.mp h'])
      · exact Or.inr (List.mem_cons_of_mem p h)
    · rcases ih _ _ q hq with h | h
      · exact Or.inl h
      · exact Or.inr (List.mem_cons_of_mem p h)

theorem addFrom_mem :
    ∀ (pool chosen : List RawQ) (n : Nat) (q : RawQ),
      q ∈ addFrom chosen n pool → q ∈ chosen ∨ q ∈ pool := by
  intro pool
  induction pool with
  | nil => intro chosen n q h; exact Or.inl h
  | cons p rest ih =>
    intro chosen n q hq
    simp only [addFrom] at hq
    split at hq
    · exact Or.inl hq
    · split at hq
      · rcases ih _ _ q hq with h | h
        · exact Or.inl h
        · exact Or.inr (List.mem_cons_of_mem p h)
      · split at hq
        · rcases List.mem_append.mp hq with h | h
          · exact Or.inl h
          · exact Or.inr (by simp [List.mem_singleton.mp h])
        · rcases ih _ _ q hq with h | h
          · rcases List.mem_append.mp h with h' | h'
            · exact Or.inl h'
            · exact Or.inr (by simp [List.mem_singleton.mp h'])
          · exact Or.inr (List.mem_cons_of_mem p h)

theorem fillTo5_mem :
    ∀ (pool chosen : List RawQ) (q : RawQ),
      q ∈ fillTo5 chosen pool → q ∈ chosen ∨ q ∈ pool := by
  intro pool
  induction pool with
  | nil => intro chosen q h; exact Or.inl h
  | cons p rest ih =>
    intro chosen q hq
    simp only [fillTo5] at hq
    split at hq
    · exact Or.inl hq
    · split at hq
      · rcases ih _ q hq with h | h
        · exact Or.inl h
        · exact Or.inr (List.mem_cons_of_mem p h)
      · rcases ih _ q hq with h | h
        · rcases List.mem_append.mp h with h' | h'
          · exact Or.inl h'
          · exact Or.inr (by simp [List.mem_singleton.mp h'])
        · exact Or.inr (List.mem_cons_of_mem p h)

theorem dropChosen_subset (c a : List RawQ) : dropChosen c a ⊆ a :=
  List.filter_subset' a

theorem favorGK_mem (a : List RawQ) (q : RawQ) (hq : q ∈ favorGK a) :
    q ∈ a := by
  rcases List.mem_append.mp hq with h | h
  · exact List.mem_of_mem_filter h
  · exact List.mem_of_mem_filter h

theorem mixIfNonce_mem (today nonce : String) (salt : Nat) (arr : List RawQ)
    (q : RawQ) (hq : q ∈ mixIfNonce today nonce salt arr) : q ∈ arr := by
  unfold mixIfNonce at hq
  split at hq
  · exact hq
  · exact (seededShuffle_perm arr _).mem_iff.mp hq

theorem prepEasy_fresh (today nonce : String) (seen : List String)
    (pool : List RawQ) (q : RawQ) (hq : q ∈ prepEasy today nonce seen pool) :
    qKey q ∉ seen :=
  dedupe_fresh seen _ q (favorGK_mem _ q (mixIfNonce_mem _ _ _ _ q hq))

theorem prepMedium_fresh (today nonce : String) (seen : List String)
    (pool : List RawQ) (q : RawQ)
    (hq : q ∈ prepMedium today nonce seen pool) : qKey q ∉ seen :=
  dedupe_fresh seen _ q (favorGK_mem _ q (mixIfNonce_mem _ _ _ _ q hq))

theorem prepHard_fresh (today nonce : String) (seen : List String)
    (pool : List RawQ) (q : RawQ)
    (hq : q ∈ prepHard today nonce seen pool) : qKey q ∉ seen :=
  dedupe_fresh seen _ q (mixIfNonce_mem _ _ _ _ q hq)

/-- Everything `selectChosen` picks comes from one of the three pools. -/
theorem selectChosen_mem (easy medium hard : List RawQ) (q : RawQ)
    (hq : q ∈ selectChosen easy medium hard) :
    q ∈ easy ∨ q ∈ medium ∨ q ∈ hard := by
  simp only [selectChosen] at hq
  rcases addFrom_mem _ _ _ q hq with h3 | hrem
  case inr =>
    -- the remainder fill: three dropChosen lists over the pools
    rcases List.mem_append.mp hrem with h' | hH
    · rcases List.mem_append.mp h' with hE | hM
      · exact Or.inl (dropChosen_subset _ _ (dropChosen_subset _ _ hE))
      · exact Or.inr (Or.inl (dropChosen_subset _ _ (dropChosen_subset _ _ hM)))
    · exact Or.inr (Or.inr (dropChosen_subset _ _ (dropChosen_subset _ _ hH)))
  case inl =>
    rcases addFrom_mem _ _ _ q h3 with h2 | hH
    case inr => exact Or.inr (Or.inr (dropChosen_subset _ _ hH))
    case inl =>
      rcases addFrom_mem _ _ _ q h2 with h1 | hM
      case inr => exact Or.inr (Or.inl (dropChosen_subset _ _ hM))
      case inl =>
        rcases addFrom_mem _ _ _ q h1 with h0 | hE
        case inr => exact Or.inl (dropChosen_subset _ _ hE)
        case inl =>
          rcases foldl_pushIfNew_mem _ _ q h0 with hnil | hGK
          · simp at hnil
          · rcases uniqueGKgo_mem _ _ _ q hGK with hnil | hpicks
            · simp at hnil
            · rcases List.mem_append.mp hpicks with hE | hM
              · exact Or.inl (List.mem_of_mem_filter
                  (List.take_subset _ _ hE))
              · exact Or.inr (Or.inl (List.mem_of_mem_filter
                  (List.take_subset _ _ hM)))

/-- Every question standing in `chosen` at the length check is fresh with
respect to the ledger loaded at the start of the run. -/
theorem chosenFinal_fresh (today nonce : String) (seen : List String)
    (e m h : List RawQ) (llm : Option (List RawQ)) (q : RawQ)
    (hq : q ∈ chosenFinal today nonce seen e m h llm) : qKey q ∉ seen := by
  have fromSelect : ∀ q', q' ∈ selectChosen (prepEasy today nonce seen e)
      (prepMedium today nonce seen m) (prepHard today nonce seen h) →
      qKey q' ∉ seen := by
    intro q' hq'
    rcases selectChosen_mem _ _ _ q' hq' with h' | h' | h'
    · exact prepEasy_fresh today nonce seen e q' h'
    · exact prepMedium_fresh today nonce seen m q' h'
    · exact prepHard_fresh today nonce seen h q' h'
  unfold chosenFinal at hq
  cases llm with
  | none => exact fromSelect q hq
  | some gen =>
    simp only at hq
    unfold llmTopUp at hq
    split at hq
    · exact fromSelect q hq
    · rcases fillTo5_mem _ _ q hq with hc | hs
      · exact fromSelect q hc
      · have hclean : q ∈ (gen.filter validGen).filter
            (fun q' => !(seen.contains (qKey q'))) := by
          rcases List.mem_append.mp hs with h' | h'
          · exact List.mem_of_mem_filter h'
          · exact List.mem_of_mem_filter h'
        have := (List.mem_filter.mp hclean).2
        intro hmem
        rw [(contains_true_iff seen (qKey q)).mpr hmem] at this
        simp at this

/-! ### Facts about the output mapping -/

theorem mkOut_text (sb idx : Nat) (q : RawQ) :
    (mkOut sb idx q).text = q.question := rfl

/-- The shuffled options are a permutation of
`[correct_answer, ...incorrect_answers]`. -/
theorem mkOut_options_perm (sb idx : Nat) (q : RawQ) :
    List.Perm (mkOut sb idx q).options
      (q.correct_answer :: q.incorrect_answers) :=
  seededShuffle_perm _ _

/-- `options[correct]` of every output question is the source question's
correct answer: `indexOf` finds it because the shuffle is a permutation. -/
theorem mkOut_correct (sb idx : Nat) (q : RawQ) :
    optionsAt (mkOut sb idx q).options (mkOut sb idx q).correct =
      q.correct_answer := by
  have hmem : q.correct_answer ∈ (mkOut sb idx q).options :=
    (mkOut_options_perm sb idx q).mem_iff.mpr (List.mem_cons_self _ _)
  exact optionsAt_jsIndexOf _ _ hmem

/-- The ledger key recomputed from an output question (line 430) equals the
key of its source question. -/
theorem outKeyOf_mkOut (sb idx : Nat) (q : RawQ) :
    outKeyOf (mkOut sb idx q) = qKey q := by
  unfold outKeyOf qKey
  rw [mkOut_correct, mkOut_text]

theorem mkFinalGo_length (sb : Nat) :
    ∀ (l : List RawQ) (i : Nat), (mkFinalGo sb i l).length = l.length := by
  intro l
  induction l with
  | nil => intro i; rfl
  | cons q rest ih => intro i; simp [mkFinalGo, ih]

theorem mkFinalGo_mem (sb : Nat) :
    ∀ (l : List RawQ) (i : Nat) (oq : OutQ), oq ∈ mkFinalGo sb i l →
      ∃ k q, q ∈ l ∧ oq = mkOut sb k q := by
  intro l
  induction l with
  | nil => intro i oq h; simp [mkFinalGo] at h
  | cons p rest ih =>
    intro i oq hq
    rcases List.mem_cons.mp hq with h | h
    · exact ⟨i, p, List.mem_cons_self p rest, h⟩
    · rcases ih (i + 1) oq h with ⟨k, q, hql, hqe⟩
      exact ⟨k, q, List.mem_cons_of_mem p hql, hqe⟩

/-- Destructuring a successful `buildArtifact`. -/
theorem buildArtifact_some (today nonce : String) (seen : List String)
    (e m h : List RawQ) (llm : Option (List RawQ)) (a : DailyArtifact)
    (ns : List String)
    (hb : buildArtifact today nonce seen e m h llm = some (a, ns)) :
    5 ≤ (chosenFinal today nonce seen e m h llm).length ∧
    a = artifactPayload today nonce (chosenFinal today nonce seen e m h llm) ∧
    ns = seen ++ a.questions.map outKeyOf := by
  unfold buildArtifact at hb
  split at hb
  · cases hb
  · rename_i hlen
    simp only [Option.some.injEq, Prod.mk.injEq] at hb
    refine ⟨Nat.le_of_not_lt hlen, hb.1.symm, ?_⟩
    rw [← hb.1]
    exact hb.2.symm

/-- A successful build has exactly five questions. -/
theorem artifactPayload_five (today nonce : String) (cf : List RawQ)
    (h5 : 5 ≤ cf.length) :
    (artifactPayload today nonce cf).questions.length = 5 := by
  unfold artifactPayload
  simp only [mkFinalGo_length, List.length_take]
  omega

/-! ### Pairwise key-distinctness of the chosen questions -/

/-- The invariant every insertion site maintains: no two chosen questions
share a dedup key. -/
def KeyDistinct (l : List RawQ) : Prop :=
  List.Pairwise (fun x y => qKey x ≠ qKey y) l

/-- A failed `chosen.find(x => qKey(x) === k)` guard really means no chosen
question has the key. -/
theorem any_key_false {c : List RawQ} {q : RawQ}
    (h : ¬ (c.any fun x => qKey x == qKey q) = true) :
    ∀ x ∈ c, qKey x ≠ qKey q := by
  intro x hx
  have := List.any_eq_false.mp (Bool.eq_false_iff.mpr h) x hx
  intro he
  exact this (beq_iff_eq.mpr he)

theorem keyDistinct_append {c : List RawQ} {q : RawQ}
    (hc : KeyDistinct c) (hq : ∀ x ∈ c, qKey x ≠ qKey q) :
    KeyDistinct (c ++ [q]) := by
  rw [KeyDistinct, List.pairwise_append]
  refine ⟨hc, List.pairwise_singleton _ _, ?_⟩
  intro x hx y hy
  rw [List.mem_singleton.mp hy]
  exact hq x hx

theorem pushIfNew_distinct {c : List RawQ} (q : RawQ)
    (hc : KeyDistinct c) : KeyDistinct (pushIfNew c q) := by
  unfold pushIfNew
  split
  · exact hc
  · rename_i hguard
    exact keyDistinct_append hc (any_key_false hguard)

theorem foldl_pushIfNew_distinct :
    ∀ (l init : List RawQ), KeyDistinct init →
      KeyDistinct (l.foldl pushIfNew init) := by
  intro l
  induction l with
  | nil => intro init h; exact h
  | cons p rest ih =>
    intro init h
    exact ih (pushIfNew init p) (pushIfNew_distinct p h)

theorem addFrom_distinct :
    ∀ (pool chosen : List RawQ) (n : Nat), KeyDistinct chosen →
      KeyDistinct (addFrom chosen n pool) := by
  intro pool
  induction pool with
  | nil => intro chosen n h; exact h
  | cons p rest ih =>
    intro chosen n h
    simp only [addFrom]
    split
    · exact h
    · split
      · exact ih _ _ h
      · rename_i hguard
        have h' := keyDistinct_append h (any_key_false hguard)
        split
        · exact h'
        · exact ih _ _ h'

theorem fillTo5_distinct :
    ∀ (pool chosen : List RawQ), KeyDistinct chosen →
      KeyDistinct (fillTo5 chosen pool) := by
  intro pool
  induction pool with
  | nil => intro chosen h; exact h
  | cons p rest ih =>
    intro chosen h
    simp only [fillTo5]
    split
    · exact h
    · split
      · exact ih _ h
      · rename_i hguard
        exact ih _ (keyDistinct_append h (any_key_false hguard))

/-- The `chosen` list at the length check has pairwise distinct keys. -/
theorem chosenFinal_distinct (today nonce : String) (seen : List String)
    (e m h : List RawQ) (llm : Option (List RawQ)) :
    KeyDistinct (chosenFinal today nonce seen e m h llm) := by
  have hsel : ∀ a b c : List RawQ, KeyDistinct (selectChosen a b c) := by
    intro a b c
    unfold selectChosen
    exact addFrom_distinct _ _ _ (addFrom_distinct _ _ _ (addFrom_distinct _ _ _
      (addFrom_distinct _ _ _ (foldl_pushIfNew_distinct _ [] List.Pairwise.nil))))
  unfold chosenFinal
  cases llm with
  | none => exact hsel _ _ _
  | some gen =>
    simp only
    unfold llmTopUp
    split
    · exact hsel _ _ _
    · exact fillTo5_distinct _ _ (hsel _ _ _)

/-- Key-distinctness carries over to the produced output questions. -/
theorem mkFinalGo_distinct (sb : Nat) :
    ∀ (l : List RawQ) (i : Nat), KeyDistinct l →
      List.Pairwise (fun x y => outKeyOf x ≠ outKeyOf y) (mkFinalGo sb i l) := by
  intro l
  induction l with
  | nil => intro i _; exact List.Pairwise.nil
  | cons p rest ih =>
    intro i hl
    have hl' := List.pairwise_cons.mp hl
    refine List.pairwise_cons.mpr ⟨?_, ih (i + 1) hl'.2⟩
    intro oy hoy
    rcases mkFinalGo_mem sb rest (i + 1) oy hoy with ⟨k, qy, hqy, rfl⟩
    rw [outKeyOf_mkOut, outKeyOf_mkOut]
    exact hl'.1 qy hqy

/-! ### Concrete example data

A pool configuration on which the pipeline succeeds, used by the scenario
claim (reroll nonce) and to witness the hypothesised theorems. -/

def exQ1 : RawQ :=
  { category := "Geography", question := "What is the capital of France?",
    correct_answer := "Paris", incorrect_answers := ["Rome", "Madrid", "Berlin"],
    difficulty := "easy" }

def exQ2 : RawQ :=
  { category := "Sports", question := "How many players are on a soccer team?",
    correct_answer := "Eleven", incorrect_answers := ["Nine", "Ten", "Twelve"],
    difficulty := "easy" }

def exQ3 : RawQ :=
  { category := "Geography", question := "Which river flows through Paris?",
    correct_answer := "Seine", incorrect_answers := ["Loire", "Rhone", "Garonne"],
    difficulty := "medium" }

def exQ4 : RawQ :=
  { category := "Entertainment: Film", question := "Who directed Jaws?",
    correct_answer := "Steven Spielberg",
    incorrect_answers := ["George Lucas", "Martin Scorsese", "James Cameron"],
    difficulty := "medium" }

def exQ5 : RawQ :=
  { category := "Science & Nature", question := "What gas do plants absorb?",
    correct_answer := "Carbon dioxide",
    incorrect_answers := ["Oxygen", "Nitrogen", "Helium"],
    difficulty := "hard" }

def exEasy : List RawQ := [exQ1, exQ2]
def exMed : List RawQ := [exQ3, exQ4]
def exHard : List RawQ := [exQ5]

/-- A nonempty ledger none of the example questions collide with. -/
def exSeen : List String := ["deadbeef"]

def exDflt : DailyArtifact × List String :=
  ({ day := "", dayIndex := 0, reroll := none, questions := [] }, [])

/-- The run without a reroll nonce. -/
def exPair : DailyArtifact × List String :=
  (buildArtifact "20250907" "" exSeen exEasy exMed exHard none).getD exDflt

def exArt : DailyArtifact := exPair.1

def exNS : List String := exPair.2

set_option maxRecDepth 100000

theorem exRun_eq :
    buildArtifact "20250907" "" exSeen exEasy exMed exHard none =
      some (exArt, exNS) := rfl

/-- The same-day run with reroll nonce `"abc"`. -/
def exPairR : DailyArtifact × List String :=
  (buildArtifact "20250907" "abc" exSeen exEasy exMed exHard none).getD exDflt

def exArtR : DailyArtifact := exPairR.1

/-! ### The write sequence of the success path -/

inductive WriteOp : Type where
  | writeDaily : DailyArtifact → WriteOp
  | writeUsed : List String → WriteOp
deriving DecidableEq

def applyOp (st : FileState) : WriteOp → FileState
  | .writeDaily a => { st with daily := some a }
  | .writeUsed s => { st with seen := s }

/-- The persistence of the success path (lines 426 and 433): two separate
plain `fs.writeFileSync` calls, artifact first, ledger second; no temp-file
or rename step exists in the script. -/
def successWrites (a : DailyArtifact) (ns : List String) : List WriteOp :=
  [WriteOp.writeDaily a, WriteOp.writeUsed ns]

/-- Crash semantics for the write sequence: a failure after the first `k`
writes leaves exactly those applied. -/
def applyPrefix (st : FileState) (ops : List WriteOp) (k : Nat) : FileState :=
  (ops.take k).foldl applyOp st

/-! ### Claim theorems -/

/-- C3: for every seed and every list, `seededShuffle` returns a permutation
of the input (same multiset, via `List.Perm`, hence same length), and, the
function being pure, two calls on identical seed and input give identical
output. -/
theorem shuffle_perm_and_deterministic {α : Type} (l : List α) (seed : Nat) :
    List.Perm (seededShuffle l seed) l ∧
    (seededShuffle l seed).length = l.length ∧
    seededShuffle l seed = seededShuffle l seed :=
  ⟨seededShuffle_perm l seed, (seededShuffle_perm l seed).length_eq, rfl⟩

/-- C1: in every successfully produced artifact, each output question's
`options` is a permutation of its source question's
`[correct_answer, ...incorrect_answers]` and `options[correct]` is that
source question's correct answer — for every day string, nonce (hence every
shuffle seed), ledger, pools and LLM input. -/
theorem options_perm_correct_index (today nonce : String) (seen : List String)
    (e m h : List RawQ) (llm : Option (List RawQ)) (a : DailyArtifact)
    (ns : List String)
    (hb : buildArtifact today nonce seen e m h llm = some (a, ns)) :
    ∀ oq ∈ a.questions, ∃ q : RawQ,
      oq.text = q.question ∧
      List.Perm oq.options (q.correct_answer :: q.incorrect_answers) ∧
      optionsAt oq.options oq.correct = q.correct_answer := by
  intro oq hoq
  rcases buildArtifact_some _ _ _ _ _ _ _ _ _ hb with ⟨h5, ha, -⟩
  subst ha
  simp only [artifactPayload] at hoq
  rcases mkFinalGo_mem _ _ _ oq hoq with ⟨k, q, hql, rfl⟩
  exact ⟨q, mkOut_text _ _ q, mkOut_options_perm _ _ q, mkOut_correct _ _ q⟩

/-- The first output question of the example run, as printed. -/
def exOut0 : OutQ :=
  { text := "What is the capital of France?",
    options := ["Paris", "Berlin", "Madrid", "Rome"], correct := 0,
    difficulty := "easy", category := "Geography" }

theorem exOut0_mem : exOut0 ∈ exArt.questions := by
  rw [show exArt.questions = exOut0 :: exArt.questions.drop 1 from rfl]
  exact List.mem_cons_self _ _

/-- Witness for C1, on the concrete example run. -/
theorem options_perm_correct_index_witness :
    ∃ q : RawQ,
      exOut0.text = q.question ∧
      List.Perm exOut0.options (q.correct_answer :: q.incorrect_answers) ∧
      optionsAt exOut0.options exOut0.correct = q.correct_answer :=
  options_perm_correct_index "20250907" "" exSeen exEasy exMed exHard none
    exArt exNS exRun_eq exOut0 exOut0_mem

/-- C4: every question in a freshly produced artifact on the non-fallback
path has a ledger key — the FNV-1a hash of its normalised
question-text|correct-answer pair, as recomputed from the output on
line 430 — that is not in the seen-set loaded at the start of the run. -/
theorem artifact_fresh_against_ledger (today nonce : String)
    (seen : List String) (e m h : List RawQ) (llm : Option (List RawQ))
    (a : DailyArtifact) (ns : List String)
    (hb : buildArtifact today nonce seen e m h llm = some (a, ns)) :
    ∀ oq ∈ a.questions, outKeyOf oq ∉ seen := by
  intro oq hoq
  rcases buildArtifact_some _ _ _ _ _ _ _ _ _ hb with ⟨h5, ha, -⟩
  subst ha
  simp only [artifactPayload] at hoq
  rcases mkFinalGo_mem _ _ _ oq hoq with ⟨k, q, hql, rfl⟩
  rw [outKeyOf_mkOut]
  exact chosenFinal_fresh today nonce seen e m h llm q
    (List.take_subset _ _ hql)

/-- Witness for C4 on the example run with a nonempty ledger. -/
theorem artifact_fresh_against_ledger_witness : outKeyOf exOut0 ∉ exSeen :=
  artifact_fresh_against_ledger "20250907" "" exSeen exEasy exMed exHard none
    exArt exNS exRun_eq exOut0 exOut0_mem

/-- C10: the five output questions of a successfully produced artifact are
pairwise distinct under the normalised question-text|correct-answer hash
key, because every insertion into `chosen` first checks that no
already-chosen question has the same key. -/
theorem artifact_questions_key_distinct (today nonce : String)
    (seen : List String) (e m h : List RawQ) (llm : Option (List RawQ))
    (a : DailyArtifact) (ns : List String)
    (hb : buildArtifact today nonce seen e m h llm = some (a, ns)) :
    List.Pairwise (fun x y => outKeyOf x ≠ outKeyOf y) a.questions := by
  rcases buildArtifact_some _ _ _ _ _ _ _ _ _ hb with ⟨h5, ha, -⟩
  subst ha
  simp only [artifactPayload]
  refine mkFinalGo_distinct _ _ 0 ?_
  exact List.Pairwise.sublist (List.take_sublist 5 _)
    (chosenFinal_distinct today nonce seen e m h llm)

/-- Witness for C10 on the example run. -/
theorem artifact_questions_key_distinct_witness :
    List.Pairwise (fun x y => outKeyOf x ≠ outKeyOf y) exArt.questions :=
  artifact_questions_key_distinct "20250907" "" exSeen exEasy exMed exHard
    none exArt exNS exRun_eq

/-- `runDaily` on a successful fetch reduces to the inner dispatch on
`buildArtifact`. -/
theorem runDaily_some_eq (st : FileState) (today nonce : String)
    (pools : List RawQ × List RawQ × List RawQ) (llm : Option (List RawQ)) :
    runDaily st today nonce (some pools) llm =
      (match buildArtifact today nonce st.seen pools.1 pools.2.1 pools.2.2
          llm with
       | some (a, ns) => { daily := some a, seen := ns }
       | none => catchBranch st today) := rfl

/-- C2: every run either ends with a persisted artifact of exactly five
questions (the success payload, or the hardcoded fallback when no artifact
existed yet) or leaves both persisted files exactly as they were — the
insufficient-content throw at line 405 happens before either write. -/
theorem run_five_or_state_untouched (st : FileState) (today nonce : String)
    (fetched : Option (List RawQ × List RawQ × List RawQ))
    (llm : Option (List RawQ)) :
    runDaily st today nonce fetched llm = st ∨
    ∃ a, (runDaily st today nonce fetched llm).daily = some a ∧
      a.questions.length = 5 := by
  have hcatch : catchBranch st today = st ∨
      ∃ a, (catchBranch st today).daily = some a ∧ a.questions.length = 5 := by
    unfold catchBranch
    cases st.daily with
    | some a => exact Or.inl rfl
    | none => exact Or.inr ⟨fallbackArtifact today, rfl, rfl⟩
  cases fetched with
  | none => exact hcatch
  | some pools =>
    cases hb : buildArtifact today nonce st.seen pools.1 pools.2.1
        pools.2.2 llm with
    | none =>
      have hr : runDaily st today nonce (some pools) llm =
          catchBranch st today := by
        rw [runDaily_some_eq, hb]
      rw [hr]
      exact hcatch
    | some pr =>
      obtain ⟨a, ns⟩ := pr
      have hr : runDaily st today nonce (some pools) llm =
          { daily := some a, seen := ns } := by
        rw [runDaily_some_eq, hb]
      refine Or.inr ⟨a, by rw [hr], ?_⟩
      rcases buildArtifact_some _ _ _ _ _ _ _ _ _ hb with ⟨h5, ha, -⟩
      rw [ha]
      exact artifactPayload_five _ _ _ h5

/-- C7: on any failure after the pools are requested (fetch failure or the
insufficient-content throw), the run keeps an existing `daily.json`
unchanged, writes the hardcoded five-question fallback only when none
exists, never touches the ledger, and therefore always leaves some valid
artifact in place, even fully offline. -/
theorem failure_preserves_and_fallback (st : FileState) (today nonce : String)
    (fetched : Option (List RawQ × List RawQ × List RawQ))
    (llm : Option (List RawQ))
    (hfail : fetched = none ∨ ∃ pools, fetched = some pools ∧
      buildArtifact today nonce st.seen pools.1 pools.2.1 pools.2.2 llm =
        none) :
    (st.daily = none → runDaily st today nonce fetched llm =
      { daily := some (fallbackArtifact today), seen := st.seen }) ∧
    (∀ a, st.daily = some a → runDaily st today nonce fetched llm = st) ∧
    (runDaily st today nonce fetched llm).seen = st.seen ∧
    (runDaily st today nonce fetched llm).daily ≠ none ∧
    (fallbackArtifact today).questions.length = 5 := by
  have hrun : runDaily st today nonce fetched llm = catchBranch st today := by
    rcases hfail with rfl | ⟨pools, rfl, hnone⟩
    · rfl
    · rw [runDaily_some_eq, hnone]
  rw [hrun]
  refine ⟨?_, ?_, ?_, ?_, rfl⟩
  · intro h0
    unfold catchBranch
    rw [h0]
  · intro a ha
    unfold catchBranch
    rw [ha]
  · unfold catchBranch
    cases hd : st.daily <;> rfl
  · unfold catchBranch
    cases hd : st.daily <;> simp [hd]

/-- Witness for C7: a fully offline run (fetch failure) against an empty
state writes the fallback artifact and leaves the ledger alone. -/
theorem failure_preserves_and_fallback_witness :
    runDaily { daily := none, seen := exSeen } "20250907" "" none none =
      { daily := some (fallbackArtifact "20250907"), seen := exSeen } :=
  (failure_preserves_and_fallback { daily := none, seen := exSeen }
    "20250907" "" none none (Or.inl rfl)).1 rfl

/-- C5: `dayIndexFrom` equals `1 + ⌊(todayUTC − epochUTC)/86400000⌋` with
the difference clamped at zero (the source's `Math.round` is exact here
because both operands are exact UTC midnights), hence always ≥ 1; with
epoch `20250824`, the date 2025-08-24 yields index 1 and 2025-08-25 yields
index 2. -/
theorem dayIndexFrom_floor_formula :
    (∀ s t : String, dayIndexFrom s t =
      1 + max 0 ((toUTCDate t - toUTCDate s) / 86400000)) ∧
    (∀ s t : String, 1 ≤ dayIndexFrom s t) ∧
    dayIndexFrom "20250824" "20250824" = 1 ∧
    dayIndexFrom "20250824" "20250825" = 2 := by
  have hjs : ∀ x : Int, jsMax0 x = max 0 x := by
    intro x
    unfold jsMax0
    rcases lt_or_le x 0 with hx | hx
    · rw [if_pos hx, max_eq_left hx.le]
    · rw [if_neg (not_lt.mpr hx), max_eq_right hx]
  have key : ∀ s t : String, jsRound (toUTCDate t - toUTCDate s) 86400000 =
      (toUTCDate t - toUTCDate s) / 86400000 := by
    intro s t
    have hdiff : toUTCDate t - toUTCDate s =
        86400000 * (utcDayNumber t - utcDayNumber s) := by
      unfold toUTCDate
      ring
    rw [hdiff, jsRound_mul, ediv_mul_86400000]
  refine ⟨?_, ?_, by decide, by decide⟩
  · intro s t
    unfold dayIndexFrom
    rw [key, hjs]
  · intro s t
    unfold dayIndexFrom jsMax0
    split <;> omega

/-- The banned scenario question of C8 (any in-bounds answers). -/
def exBannedQ : RawQ :=
  { category := "Science & Nature",
    question := "Which of the following is NOT a planet?",
    correct_answer := "Pluto", incorrect_answers := ["Mars", "Venus", "Saturn"],
    difficulty := "easy" }

/-- The accepted scenario question of C8. -/
def exAcceptedQ : RawQ :=
  { category := "Geography", question := "What is the capital of Japan?",
    correct_answer := "Tokyo", incorrect_answers := ["Kyoto", "Osaka", "Nagoya"],
    difficulty := "easy" }

/-- C8: the content filter rejects the banned-phrase scenario question and
accepts the capital-of-Japan one, and `passEasyFilter` is the conjunction
of its four sub-checks, so any single failing sub-check rejects. -/
theorem filter_scenarios_and_conjunctive :
    (hasBannedPhrase "Which of the following is NOT a planet?" = true ∧
     passEasyFilter exBannedQ = false) ∧
    (hasBannedPhrase "What is the capital of Japan?" = false ∧
     passEasyFilter exAcceptedQ = true) ∧
    (∀ q : RawQ, passEasyFilter q =
      (withinLength q && !hasBannedPhrase q.question &&
       isRelatableCategory q.category &&
       !(decide (countUpper q.question > countLower q.question * 2)))) := by
  refine ⟨⟨by decide, by decide⟩, ⟨by decide, by decide⟩, ?_⟩
  intro q
  unfold passEasyFilter
  cases h1 : withinLength q <;> cases h2 : hasBannedPhrase q.question <;>
    cases h3 : isRelatableCategory q.category <;>
    by_cases h4 : countUpper q.question > countLower q.question * 2 <;>
    simp [h1, h2, h3, h4]

/-- First output question of the reroll run (nonce `"abc"`), as printed. -/
def exOutR0 : OutQ :=
  { text := "How many players are on a soccer team?",
    options := ["Eleven", "Nine", "Twelve", "Ten"], correct := 0,
    difficulty := "easy", category := "Sports" }

/-- Second output question of the reroll run: the same source question as
`exOut0`, with a different options ordering. -/
def exOutR1 : OutQ :=
  { text := "What is the capital of France?",
    options := ["Rome", "Paris", "Berlin", "Madrid"], correct := 1,
    difficulty := "easy", category := "Geography" }

/-- C9: on the same day, the runs with reroll nonce `"abc"` and with the
empty nonce use different shuffle seed bases and produce a question (the
capital-of-France one) whose options ordering differs between the two
artifacts, while the artifacts' `day` string and `dayIndex` are identical. -/
theorem reroll_nonce_scenario :
    seedBase "20250907" "abc" ≠ seedBase "20250907" "" ∧
    exArtR.day = exArt.day ∧
    exArtR.dayIndex = exArt.dayIndex ∧
    exOut0 ∈ exArt.questions ∧
    exOutR1 ∈ exArtR.questions ∧
    exOutR1.text = exOut0.text ∧
    exOutR1.options ≠ exOut0.options := by
  refine ⟨by decide, rfl, by decide, exOut0_mem, ?_, rfl, by decide⟩
  rw [show exArtR.questions =
    exOutR0 :: exOutR1 :: exArtR.questions.drop 2 from rfl]
  exact List.mem_cons_of_mem _ (List.mem_cons_self _ _)

/-- C6 counterexample: interrupting the success path after the artifact
write but before the ledger write leaves a state in which neither "both
writes applied" nor "neither applied" holds — the two writes are not one
atomic unit. -/
theorem write_unit_counterexample :
    ¬ (applyPrefix { daily := none, seen := [] }
        (successWrites (fallbackArtifact "20250907") ["7dcfccde"]) 1 =
        { daily := none, seen := [] } ∨
      applyPrefix { daily := none, seen := [] }
        (successWrites (fallbackArtifact "20250907") ["7dcfccde"]) 1 =
        { daily := some (fallbackArtifact "20250907"),
          seen := ["7dcfccde"] }) := by
  decide

/-- C6 (amended): the success path persists with two separate sequential
`writeFileSync` calls, artifact first, ledger second.  A failure before the
first write leaves the state unchanged and completing both writes installs
the new artifact and ledger, but a failure between the two writes leaves
the new artifact persisted with the old ledger — no atomic-unit guarantee
exists. -/
theorem writes_sequential_not_atomic (st : FileState) (a : DailyArtifact)
    (ns : List String) :
    applyPrefix st (successWrites a ns) 0 = st ∧
    applyPrefix st (successWrites a ns) 1 =
      { daily := some a, seen := st.seen } ∧
    applyPrefix st (successWrites a ns) 2 =
      { daily := some a, seen := ns } :=
  ⟨rfl, rfl, rfl⟩
